import Mathlib

/-!
Verification of the soundcloud-fs content-mapping layer and its composite
byte-stream engine.

The domain error type, the `Entry` node variant and its `Node` trait
implementation (`file_attributes`, `open_ro`, `children`, `child_by_name`,
`read_link`) are embedded from `src/mapping.rs`.  The stream-engine
primitives (`Concat`, `LazyOpen`, the zero padding and the byte-skip
wrapper) live in `ioutil` submodules whose sources are not part of the
shown tree; they are modelled from the specification's description of the
Composite Stream Engine.  Machine reads become explicit state passing: a
`ConcatStream` carries the ordered sub-sources, a per-source producer
invocation count, and the current seek position.
-/

/-- Embedded from `src/mapping.rs` (`enum Error`): the domain error type.
`soundCloudError`, `ioError` and `id3Error` carry their display message;
`ioError` additionally carries the optional raw OS error code that
`io::Error::raw_os_error` would report. -/
inductive Error where
  | childNotFound
  | soundCloudError (msg : String)
  | ioError (rawOsError : Option Int) (msg : String)
  | id3Error (msg : String)
deriving DecidableEq, Repr

/-- The libc `ENOENT` status code ("no such entry"). -/
def errnoNoEnt : Int := 2

/-- The libc `EIO` status code (generic I/O failure). -/
def errnoIoErr : Int := 5

/-- Embedded from `src/mapping.rs` (`impl filesystem::Error for Error`,
`fn errno`): `ChildNotFound` maps to `ENOENT`; `SoundCloudError` and
`ID3Error` map to `EIO`; `IOError` maps to its raw OS error when present,
falling back to `EIO` otherwise (`err.raw_os_error().unwrap_or(libc::EIO)`). -/
def Error.errno : Error → Int
  | .childNotFound => errnoNoEnt
  | .soundCloudError _ => errnoIoErr
  | .ioError rawOsError _ => rawOsError.getD errnoIoErr
  | .id3Error _ => errnoIoErr

/-- Modelled from the spec: a sub-stream descriptor of the Composite Stream
Engine (`ioutil` sources are not in the shown tree).  A source has a length
known up front by a cheap probe, a content function giving the byte at each
offset below the length, and a flag telling whether its content production
is deferred behind a one-shot producer (`LazyOpen`) or already resident
(a byte buffer or the zero padding). -/
structure Source where
  length : Nat
  content : Nat → Nat
  deferred : Bool

/-- A sub-source of a concatenation paired with the number of times its
content producer has been invoked so far. -/
abbrev SubSrc := Source × Nat

/-- Modelled from the spec: the state of one Composite Stream handle — the
ordered sub-sources with their producer-invocation counts, and the current
seek position. -/
structure ConcatStream where
  subs : List SubSrc
  pos : Nat

/-- Total length of a list of sub-sources (the cumulative-length table's
last entry): the sum of the probed lengths. -/
def totalSubs (subs : List SubSrc) : Nat :=
  (subs.map (fun p => p.1.length)).sum

/-- Total length of a Composite Stream. -/
def ConcatStream.total (st : ConcatStream) : Nat :=
  totalSubs st.subs

/-- Sum of the lengths of a list of sources. -/
def totalLength (srcs : List Source) : Nat :=
  (srcs.map Source.length).sum

/-- Modelled from the spec: `Concat::new` probes every source's length and
builds the stream at position 0; no producer has been invoked yet. -/
def Concat.new (srcs : List Source) : ConcatStream :=
  { subs := srcs.map (fun s => (s, 0)), pos := 0 }

/-- The byte of a concatenation at a global offset: locate the owning
source by walking the cumulative lengths and index its content locally. -/
def byteAtSubs : List SubSrc → Nat → Nat
  | [], _ => 0
  | (s, _) :: rest, g => if g < s.length then s.content g else byteAtSubs rest (g - s.length)

/-- Mark the producers that a read of the global window `[lo, hi)` forces:
walking the sub-sources with accumulated start offset `start`, a deferred
source whose range meets the window and whose producer has not yet run is
invoked exactly once. -/
def touchAux (lo hi : Nat) : Nat → List SubSrc → List SubSrc
  | _, [] => []
  | start, (s, c) :: rest =>
      (s, if s.deferred = true ∧ c = 0 ∧ max lo start < min hi (start + s.length)
          then c + 1 else c)
        :: touchAux lo hi (start + s.length) rest

/-- Modelled from the spec: reading `n` bytes from the current position.
The count is clipped at end-of-stream (fewer bytes are returned only
there); the bytes are drawn across every source the window intersects, and
exactly those deferred sources are triggered. -/
def ConcatStream.read (st : ConcatStream) (n : Nat) : List Nat × ConcatStream :=
  let cnt := min n (st.total - st.pos)
  ((List.range cnt).map (fun j => byteAtSubs st.subs (st.pos + j)),
   { subs := touchAux st.pos (st.pos + cnt) 0 st.subs, pos := st.pos + cnt })

/-- An operation on one Composite Stream handle: a seek, a read of `n`
bytes, or an attribute (length) query. -/
inductive StreamOp where
  | seek (o : Nat)
  | read (n : Nat)
  | queryLen

/-- One step of the stream state machine. -/
def ConcatStream.step (st : ConcatStream) : StreamOp → ConcatStream
  | .seek o => { st with pos := o }
  | .queryLen => st
  | .read n => (st.read n).2

/-- Run a sequence of stream operations from a state. -/
def runOps : ConcatStream → List StreamOp → ConcatStream
  | st, [] => st
  | st, op :: rest => runOps (st.step op) rest

/-- Producer invocation count of the `i`-th sub-source. -/
def getCount : List SubSrc → Nat → Nat
  | [], _ => 0
  | sub :: _, 0 => sub.2
  | _ :: rest, i + 1 => getCount rest i

/-- Length of the `i`-th sub-source. -/
def lenAt : List SubSrc → Nat → Nat
  | [], _ => 0
  | sub :: _, 0 => sub.1.length
  | _ :: rest, i + 1 => lenAt rest i

/-- Deferred flag of the `i`-th sub-source. -/
def deferredAt : List SubSrc → Nat → Bool
  | [], _ => false
  | sub :: _, 0 => sub.1.deferred
  | _ :: rest, i + 1 => deferredAt rest i

/-- Global start offset of the `i`-th sub-source: the sum of the lengths of
the sources before it. -/
def startOfSubs : List SubSrc → Nat → Nat
  | _, 0 => 0
  | [], _ + 1 => 0
  | sub :: rest, i + 1 => sub.1.length + startOfSubs rest i

/-- Whether every read in a sequence of operations, replayed from `st`,
stays inside the byte range `[0, b)`; seeks and attribute queries are
unrestricted. -/
def confinedBelow (b : Nat) : ConcatStream → List StreamOp → Bool
  | _, [] => true
  | st, op :: rest =>
      (match op with
       | .read n => decide (st.pos + min n (st.total - st.pos) ≤ b)
       | _ => true)
      && confinedBelow b (st.step op) rest

/-- Modelled from the spec: the byte-skip wrapper over an inner source with
skip count `k`: it reports length `inner.length - k` and translates every
offset by adding `k` before delegating to the inner source. -/
def skipSource (inner : Source) (k : Nat) : Source :=
  { length := inner.length - k
    content := fun o => inner.content (o + k)
    deferred := inner.deferred }

/-- The content of a source as a byte list. -/
def Source.contentBytes (s : Source) : List Nat :=
  (List.range s.length).map s.content

/-- Embedded from `src/mapping.rs`: the slice of `soundcloud::User` the
mapping layer reads (only the permalink reaches names and link targets). -/
structure User where
  permalink : String
deriving DecidableEq, Repr

/-- Decidable equality for `Except`, needed to evaluate node results on
concrete inputs. -/
instance {ε α : Type} [DecidableEq ε] [DecidableEq α] : DecidableEq (Except ε α) := fun x y =>
  match x, y with
  | .ok a, .ok b =>
      if h : a = b then .isTrue (by rw [h]) else .isFalse (by intro hh; cases hh; exact h rfl)
  | .error a, .error b =>
      if h : a = b then .isTrue (by rw [h]) else .isFalse (by intro hh; cases hh; exact h rfl)
  | .ok _, .error _ => .isFalse (by intro hh; cases hh)
  | .error _, .ok _ => .isFalse (by intro hh; cases hh)

/-- Embedded from `src/mapping.rs`: the slice of `soundcloud::Track` the
mapping layer reads.  `id3TagBytes` is the serialized ID3v2.4 tag that
`track.id3_tag()` followed by `write_to` would produce (or the error either
step raises); `audio` is the byte content of the remote audio stream. -/
structure Track where
  permalink : String
  originalContentSize : Nat
  id3TagBytes : Except Error (List Nat)
  audio : List Nat
deriving DecidableEq, Repr

/-- The collaborator (SoundCloud client) behind `Entry`: each method is one
upstream query, failing with a `soundcloud::Error` display message. -/
structure SCEnv where
  userByName : String → Except String User
  tracks : User → Except String (List Track)
  favorites : User → Except String (List Track)
  following : User → Except String (List User)

/-- Embedded from `src/mapping.rs` (`enum Entry`): the content-node
variants.  The root `users` node holds the list of user names marked for
recursing (field `show` in the source; renamed because `show` is reserved
in Lean). -/
inductive Entry where
  | users (showNames : List String)
  | user (u : User) (recurse : Bool)
  | userFavorites (u : User)
  | userFollowing (u : User)
  | userReference (u : User)
  | track (t : Track)
deriving DecidableEq, Repr

/-- Outcome of a fallible node operation: success, a returned domain
error, or a Rust panic (the source's `unreachable!` arms). -/
inductive Outcome (α : Type) where
  | ok (val : α)
  | err (e : Error)
  | panic (msg : String)
deriving DecidableEq, Repr

/-- Whether an outcome is a panic. -/
def Outcome.isPanic : Outcome α → Bool
  | .panic _ => true
  | _ => false

/-- Whether an outcome is a returned domain error. -/
def Outcome.isErr : Outcome α → Bool
  | .err _ => true
  | _ => false

/-- Embedded from `src/mapping.rs` (`fn map_track_to_child`): a track's
directory entry is named after its permalink with an `.mp3` suffix. -/
def mapTrackToChild (t : Track) : String × Entry :=
  (t.permalink ++ ".mp3", .track t)

/-- Children of the root `Users` node: one `User::by_name` upstream call
per shown name, collected left to right and short-circuiting on the first
error (the `?` inside the `map(..).collect()` of the source).  The second
component threads the number of upstream calls issued so far. -/
def childrenOfUsers (env : SCEnv) : List String → Nat → Outcome (List (String × Entry)) × Nat
  | [], n => (.ok [], n)
  | name :: rest, n =>
      match env.userByName name with
      | .error msg => (.err (.soundCloudError msg), n + 1)
      | .ok u =>
          match childrenOfUsers env rest (n + 1) with
          | (.ok tail, n') => (.ok ((name, Entry.user u true) :: tail), n')
          | other => other

/-- Embedded from `src/mapping.rs` (`fn children`): directory listing.
The extra `Nat` argument and result thread the count of upstream
(collaborator) calls, so that laziness towards the collaborator is
observable.  `unreachable!` arms become panics. -/
def Entry.children (env : SCEnv) (e : Entry) : Nat → Outcome (List (String × Entry)) × Nat :=
  match e with
  | .users showNames => childrenOfUsers env showNames
  | .user u recurse => fun n =>
      match env.tracks u with
      | .error msg => (.err (.soundCloudError msg), n + 1)
      | .ok ts =>
          let base := if recurse then
              [("favorites", Entry.userFavorites u), ("following", Entry.userFollowing u)]
            else []
          (.ok (base ++ ts.map mapTrackToChild), n + 1)
  | .userFavorites u => fun n =>
      match env.favorites u with
      | .error msg => (.err (.soundCloudError msg), n + 1)
      | .ok ts => (.ok (ts.map mapTrackToChild), n + 1)
  | .userFollowing u => fun n =>
      match env.following u with
      | .error msg => (.err (.soundCloudError msg), n + 1)
      | .ok us => (.ok (us.map fun w => (w.permalink, Entry.userReference w)), n + 1)
  | .userReference _ => fun n => (.panic "user referebces do not have child files", n)
  | .track _ => fun n => (.panic "tracks do not have child files", n)

/-- Embedded from Rust's `str::starts_with` as a character-list prefix
test (Lean's own `String.startsWith` does not reduce in the kernel). -/
def strStartsWith (s pre : String) : Bool :=
  pre.data.isPrefixOf s.data

/-- Embedded from `src/mapping.rs` (`fn child_by_name`): on the root
`Users` node the reserved names `autorun.inf` and `BDMV` and every name
starting with `.` fail with `ChildNotFound` before any upstream call; any
other name is resolved through `User::by_name`, with `recurse` set when
the name is among the shown names.  Every other node delegates to its own
`children` listing and picks the first entry with a matching name, failing
with `ChildNotFound` when absent. -/
def Entry.childByName (env : SCEnv) (e : Entry) (name : String) : Nat → Outcome Entry × Nat :=
  match e with
  | .users showNames => fun n =>
      if name = "autorun.inf" ∨ name = "BDMV" then (.err .childNotFound, n)
      else if strStartsWith name "." = true then (.err .childNotFound, n)
      else
        match env.userByName name with
        | .error msg => (.err (.soundCloudError msg), n + 1)
        | .ok u => (.ok (Entry.user u (showNames.any fun s => s == name)), n + 1)
  | _ => fun n =>
      match Entry.children env e n with
      | (.ok cs, n') =>
          match cs.find? (fun p => p.1 == name) with
          | some p => (.ok p.2, n')
          | none => (.err .childNotFound, n')
      | (.err er, n') => (.err er, n')
      | (.panic s, n') => (.panic s, n')

/-- Embedded from `src/mapping.rs` (`fn read_link`): a `UserReference`
resolves to the path with components `..`, `..`, permalink; every other
variant hits `unreachable!`. -/
def Entry.readLink : Entry → Outcome (List String)
  | .userReference u => .ok ["..", "..", u.permalink]
  | _ => .panic "not a symlink"

/-- Embedded from `src/mapping.rs` (`fn open_ro`): a `Track` serializes its
ID3 tag into a resident buffer, appends one million resident zero bytes of
padding, then the deferred audio source, and concatenates the three;
every other variant hits `unreachable!`. -/
def Entry.openRO : Entry → Outcome ConcatStream
  | .track t =>
      match t.id3TagBytes with
      | .error e => .err e
      | .ok tagBuf =>
          .ok (Concat.new
            [ { length := tagBuf.length, content := fun i => tagBuf.getD i 0, deferred := false },
              { length := 1000000, content := fun _ => 0, deferred := false },
              { length := t.audio.length, content := fun i => t.audio.getD i 0, deferred := true } ])
  | _ => .panic "only tracks can be opened for reading"

/-- File kind tag reported to the kernel protocol. -/
inductive FileType where
  | directory
  | regularFile
  | symlink
deriving DecidableEq, Repr

/-- The attribute fields of `fuse::FileAttr` that `src/mapping.rs` fills
with entry-dependent values, plus the constant permission/link fields; the
timestamp fields are omitted because they read the wall clock or
collaborator metadata not otherwise used. -/
structure FileAttr where
  ino : Nat
  size : Nat
  blocks : Nat
  kind : FileType
  perm : Nat
  nlink : Nat
  uid : Nat
  gid : Nat
  rdev : Nat
  flags : Nat
deriving DecidableEq, Repr

/-- Embedded from `src/mapping.rs` (`const BLOCK_SIZE`). -/
def BLOCK_SIZE : Nat := 1024

/-- Embedded from `src/mapping.rs` (`fn file_attributes`): directories and
the symlink report size 0 and one block with mode 0o555; a track reports
`original_content_size` bytes, `size / BLOCK_SIZE + 1` blocks and mode
0o444. -/
def Entry.fileAttributes (e : Entry) (ino : Nat) : FileAttr :=
  match e with
  | .users _ => ⟨ino, 0, 1, .directory, 0o555, 1, 0, 0, 1, 0⟩
  | .user _ _ => ⟨ino, 0, 1, .directory, 0o555, 1, 0, 0, 1, 0⟩
  | .userFavorites _ => ⟨ino, 0, 1, .directory, 0o555, 1, 0, 0, 1, 0⟩
  | .userFollowing _ => ⟨ino, 0, 1, .directory, 0o555, 1, 0, 0, 1, 0⟩
  | .userReference _ => ⟨ino, 0, 1, .symlink, 0o555, 1, 0, 0, 1, 0⟩
  | .track t =>
      ⟨ino, t.originalContentSize, t.originalContentSize / BLOCK_SIZE + 1,
       .regularFile, 0o444, 1, 0, 0, 1, 0⟩

/-- Whether the entry is the root `Users` node. -/
def Entry.isUsers : Entry → Bool
  | .users _ => true
  | _ => false

/-- Whether the entry is a `Track`. -/
def Entry.isTrack : Entry → Bool
  | .track _ => true
  | _ => false

/-- Whether the entry is a `UserReference`. -/
def Entry.isUserReference : Entry → Bool
  | .userReference _ => true
  | _ => false

/-- A stub collaborator that resolves every user name, with no tracks,
favorites or followings. -/
def exEnv : SCEnv :=
  { userByName := fun n => .ok ⟨n⟩
    tracks := fun _ => .ok []
    favorites := fun _ => .ok []
    following := fun _ => .ok [] }

/-- A concrete track: reported size 50, a 3-byte serialized tag, 60 audio
bytes. -/
def exTrack : Track :=
  { permalink := "song"
    originalContentSize := 50
    id3TagBytes := .ok [1, 2, 3]
    audio := List.replicate 60 7 }

/-- A concrete 10-byte resident buffer source. -/
def exBuf : Source := ⟨10, fun i => i + 100, false⟩

/-- The one-million-byte zero padding source. -/
def exPad : Source := ⟨1000000, fun _ => 0, false⟩

/-- A concrete deferred 5,000,000-byte audio source. -/
def exAudio : Source := ⟨5000000, fun i => i + 1, true⟩

/-- The Composite Stream of the spec's concrete scenario: buffer, padding,
deferred audio. -/
def exScenario : ConcatStream := Concat.new [exBuf, exPad, exAudio]

/-- A concrete 5-byte inner source for the byte-skip law. -/
def exInner : Source := ⟨5, fun i => i * 10, false⟩

/-- A two-source list whose second source is deferred, for the laziness
law. -/
def exSrcsLazy : List Source := [⟨2, fun _ => 0, false⟩, ⟨3, fun _ => 1, true⟩]

/-- A handle history that seeks and reads only within the first source's
range. -/
def exOpsLazy : List StreamOp := [.seek 0, .read 2, .queryLen]

/-- Claim C1 counterexample: an `IOError` wrapping an OS error with raw
code 13 (`EACCES`) is mapped to 13 by `errno`, which is neither the
generic I/O failure status nor the not-found status — so not every
non-`ChildNotFound` error maps to `EIO`. -/
theorem errno_ioError_counterexample :
    (Error.ioError (some 13) "permission denied").errno = 13
  ∧ (Error.ioError (some 13) "permission denied").errno ≠ errnoIoErr
  ∧ (Error.ioError (some 13) "permission denied").errno ≠ errnoNoEnt := by
  decide

/-- Claim C1 (amended): `errno` maps `ChildNotFound` to `ENOENT`;
`SoundCloudError` and `ID3Error` to `EIO`; and `IOError` to its raw OS
error code when one is present, degrading to `EIO` only when there is
none. -/
theorem errno_mapping (m : String) (r : Int) :
    Error.childNotFound.errno = errnoNoEnt
  ∧ (Error.soundCloudError m).errno = errnoIoErr
  ∧ (Error.id3Error m).errno = errnoIoErr
  ∧ (Error.ioError none m).errno = errnoIoErr
  ∧ (Error.ioError (some r) m).errno = r :=
  ⟨rfl, rfl, rfl, rfl, rfl⟩

/-- Claim C10: for every `UserReference` entry wrapping a user with
permalink `p`, `read_link` returns exactly the relative path with
components `..`, `..`, `p`. -/
theorem userReference_readLink (u : User) :
    (Entry.userReference u).readLink = .ok ["..", "..", u.permalink] :=
  rfl

/-- Claim C5 counterexample: listing the children of a `Track` entry
panics (the source's `unreachable!`), it does not return a domain
error — and the `Error` type has no `NotApplicable` variant at all. -/
theorem children_track_panics :
    ((Entry.track exTrack).children exEnv 0).1.isPanic = true
  ∧ ((Entry.track exTrack).children exEnv 0).1.isErr = false := by
  decide

/-- Claim C5 (amended): `children()` on a `Track` or `UserReference`
entry, `open_ro` on any non-`Track` entry and `read_link` on any
non-`UserReference` entry all panic via `unreachable!` (diverge) instead
of returning a domain error. -/
theorem nonDirectory_ops_panic (env : SCEnv) (t : Track) (u : User) (e₁ e₂ : Entry)
    (ht : e₁.isTrack = false) (hs : e₂.isUserReference = false) :
    (Entry.track t).children env 0 = (.panic "tracks do not have child files", 0)
  ∧ (Entry.userReference u).children env 0 = (.panic "user referebces do not have child files", 0)
  ∧ e₁.openRO = .panic "only tracks can be opened for reading"
  ∧ e₂.readLink = .panic "not a symlink" := by
  refine ⟨rfl, rfl, ?_, ?_⟩
  · cases e₁ <;> first | rfl | simp [Entry.isTrack] at ht
  · cases e₂ <;> first | rfl | simp [Entry.isUserReference] at hs

/-- Witness for the amended Claim C5 at a concrete root entry and track
entry. -/
theorem nonDirectory_ops_panic_witness :
    (Entry.users []).isTrack = false
  ∧ (Entry.track exTrack).isUserReference = false
  ∧ ((Entry.track exTrack).children exEnv 0 = (.panic "tracks do not have child files", 0)
     ∧ (Entry.userReference ⟨"u"⟩).children exEnv 0
         = (.panic "user referebces do not have child files", 0)
     ∧ (Entry.users []).openRO = .panic "only tracks can be opened for reading"
     ∧ (Entry.track exTrack).readLink = .panic "not a symlink") :=
  ⟨rfl, rfl, nonDirectory_ops_panic exEnv exTrack ⟨"u"⟩ (Entry.users []) (Entry.track exTrack) rfl rfl⟩

/-- Claim C6: resolving a reserved name (`autorun.inf`, `BDMV`) or any
name starting with `.` on the root `Users` node fails with
`ChildNotFound` and issues zero upstream calls, whatever the collaborator
and the shown names. -/
theorem reserved_names_no_upstream (env : SCEnv) (names : List String) (name : String)
    (h : name = "autorun.inf" ∨ name = "BDMV" ∨ strStartsWith name "." = true) :
    Entry.childByName env (.users names) name 0 = (.err .childNotFound, 0) := by
  rcases h with h | h | h
  · simp [Entry.childByName, h]
  · simp [Entry.childByName, h]
  · by_cases h2 : name = "autorun.inf" ∨ name = "BDMV"
    · simp [Entry.childByName, h2]
    · simp [Entry.childByName, h2, h]

/-- Witness for Claim C6: the dotfile probe `.hidden` fails with
`ChildNotFound` and no upstream call on a concrete stub collaborator. -/
theorem reserved_names_no_upstream_witness :
    (".hidden" = "autorun.inf" ∨ ".hidden" = "BDMV" ∨ strStartsWith ".hidden" "." = true)
  ∧ Entry.childByName exEnv (.users ["alice"]) ".hidden" 0 = (.err .childNotFound, 0) :=
  ⟨by decide, reserved_names_no_upstream exEnv ["alice"] ".hidden" (by decide)⟩

lemma byteAtSubs_shift (s : Source) (c : Nat) (rest : List SubSrc) (x : Nat) :
    byteAtSubs ((s, c) :: rest) (s.length + x) = byteAtSubs rest x := by
  simp [byteAtSubs]

lemma getCount_new (srcs : List Source) (i : Nat) :
    getCount (srcs.map (fun s => (s, 0))) i = 0 := by
  induction srcs generalizing i with
  | nil => simp [getCount]
  | cons s rest ih => cases i <;> simp [getCount, ih]

lemma readAll (subs : List SubSrc) :
    (List.range (totalSubs subs)).map (byteAtSubs subs)
      = (subs.map (fun p => p.1.contentBytes)).flatten := by
  induction subs with
  | nil => simp [totalSubs, byteAtSubs]
  | cons hd rest ih =>
      obtain ⟨s, c⟩ := hd
      have htot : totalSubs ((s, c) :: rest) = s.length + totalSubs rest := by
        simp [totalSubs]
      rw [htot, List.range_add, List.map_append, List.map_cons, List.flatten_cons]
      congr 1
      · apply List.map_congr_left
        intro a ha
        rw [List.mem_range] at ha
        simp [byteAtSubs, ha]
      · rw [List.map_map, ← ih]
        apply List.map_congr_left
        intro a _
        simp [byteAtSubs_shift]

/-- Claim C2: a Composite Stream built from sources with lengths
`[l0, ..., ln]` has total length `Σ li`; construction probes lengths only
(every producer-invocation count is still zero); and reading the full
range `[0, total)` returns byte-for-byte the concatenation of the
sources' contents in order. -/
theorem concat_total_and_roundtrip (srcs : List Source) :
    (Concat.new srcs).total = (srcs.map Source.length).sum
  ∧ (∀ i, getCount (Concat.new srcs).subs i = 0)
  ∧ ((Concat.new srcs).read (Concat.new srcs).total).1
      = (srcs.map Source.contentBytes).flatten := by
  refine ⟨?_, fun i => getCount_new srcs i, ?_⟩
  · simp [Concat.new, ConcatStream.total, totalSubs, List.map_map]
    rfl
  · show ((Concat.new srcs).read (totalSubs (srcs.map (fun s => (s, 0))))).1 = _
    simp only [ConcatStream.read, Concat.new, ConcatStream.total, Nat.sub_zero, Nat.min_self,
      Nat.zero_add]
    rw [readAll]
    simp only [List.map_map]
    rfl

lemma getCount_touchAux (lo hi : Nat) (subs : List SubSrc) :
    ∀ (start i : Nat),
    getCount (touchAux lo hi start subs) i
      = if deferredAt subs i = true ∧ getCount subs i = 0
            ∧ max lo (start + startOfSubs subs i) < min hi (start + startOfSubs subs i + lenAt subs i)
        then 1 else getCount subs i := by
  induction subs with
  | nil => intro start i; simp [touchAux, getCount, deferredAt]
  | cons hd rest ih =>
      obtain ⟨s, c⟩ := hd
      intro start i
      cases i with
      | zero =>
          simp only [touchAux, getCount, deferredAt, startOfSubs, lenAt, Nat.add_zero]
          by_cases h : s.deferred = true ∧ c = 0 ∧ max lo start < min hi (start + s.length)
          · obtain ⟨h1, h2, h3⟩ := h
            subst h2
            simp [h1, h3]
          · rw [if_neg h, if_neg h]
      | succ j =>
          simp only [touchAux, getCount, deferredAt, startOfSubs, lenAt]
          rw [ih (start + s.length) j]
          have : start + (s.length + startOfSubs rest j) = start + s.length + startOfSubs rest j := by
            omega
          rw [this]

lemma touchAux_fst (lo hi : Nat) (subs : List SubSrc) :
    ∀ start, (touchAux lo hi start subs).map Prod.fst = subs.map Prod.fst := by
  induction subs with
  | nil => intro start; simp [touchAux]
  | cons hd rest ih =>
      obtain ⟨s, c⟩ := hd
      intro start
      simp [touchAux, ih]

lemma startOfSubs_eq_of_fst_eq {subs₁ subs₂ : List SubSrc}
    (h : subs₁.map Prod.fst = subs₂.map Prod.fst) : ∀ i, startOfSubs subs₁ i = startOfSubs subs₂ i := by
  induction subs₁ generalizing subs₂ with
  | nil =>
      cases subs₂ with
      | nil => intro i; rfl
      | cons b bs => simp at h
  | cons a as ih =>
      cases subs₂ with
      | nil => simp at h
      | cons b bs =>
          simp only [List.map_cons, List.cons.injEq] at h
          intro i
          cases i with
          | zero => rfl
          | succ j => simp [startOfSubs, h.1, ih h.2 j]

lemma totalSubs_eq_of_fst_eq {subs₁ subs₂ : List SubSrc}
    (h : subs₁.map Prod.fst = subs₂.map Prod.fst) : totalSubs subs₁ = totalSubs subs₂ := by
  unfold totalSubs
  have : subs₁.map (fun p => p.1.length) = subs₂.map (fun p => p.1.length) := by
    have h1 : subs₁.map (fun p => p.1.length) = (subs₁.map Prod.fst).map Source.length := by
      simp [List.map_map]
    have h2 : subs₂.map (fun p => p.1.length) = (subs₂.map Prod.fst).map Source.length := by
      simp [List.map_map]
    rw [h1, h2, h]
  rw [this]

lemma step_fst (st : ConcatStream) (op : StreamOp) :
    (st.step op).subs.map Prod.fst = st.subs.map Prod.fst := by
  cases op with
  | seek o => rfl
  | queryLen => rfl
  | read n => simp [ConcatStream.step, ConcatStream.read, touchAux_fst]

lemma getCount_le_one_step (st : ConcatStream) (op : StreamOp) (i : Nat)
    (h : getCount st.subs i ≤ 1) : getCount ((st.step op).subs) i ≤ 1 := by
  cases op with
  | seek o => exact h
  | queryLen => exact h
  | read n =>
      simp only [ConcatStream.step, ConcatStream.read]
      rw [getCount_touchAux]
      split
      · exact Nat.le_refl 1
      · exact h

lemma getCount_le_one_run (ops : List StreamOp) (st : ConcatStream) (i : Nat)
    (h : getCount st.subs i ≤ 1) : getCount ((runOps st ops).subs) i ≤ 1 := by
  induction ops generalizing st with
  | nil => exact h
  | cons op rest ih => exact ih _ (getCount_le_one_step st op i h)

lemma getCount_read_outside (st : ConcatStream) (n : Nat) (i : Nat)
    (h : ¬ max st.pos (startOfSubs st.subs i)
           < min (st.pos + min n (st.total - st.pos)) (startOfSubs st.subs i + lenAt st.subs i)) :
    getCount ((st.step (.read n)).subs) i = getCount st.subs i := by
  simp only [ConcatStream.step, ConcatStream.read]
  rw [getCount_touchAux]
  rw [if_neg]
  intro hcond
  exact h (by simpa using hcond.2.2)

lemma getCount_run_confined (ops : List StreamOp) (st : ConcatStream) (i : Nat)
    (h0 : getCount st.subs i = 0)
    (hc : confinedBelow (startOfSubs st.subs i) st ops = true) :
    getCount ((runOps st ops).subs) i = 0 := by
  induction ops generalizing st with
  | nil => exact h0
  | cons op rest ih =>
      have hfst := step_fst st op
      have hstart := startOfSubs_eq_of_fst_eq hfst i
      cases op with
      | seek o =>
          simp only [confinedBelow, Bool.and_eq_true] at hc
          exact ih (st.step (.seek o)) h0 (by rw [hstart]; exact hc.2)
      | queryLen =>
          simp only [confinedBelow, Bool.and_eq_true] at hc
          exact ih (st.step .queryLen) h0 (by rw [hstart]; exact hc.2)
      | read n =>
          simp only [confinedBelow, Bool.and_eq_true] at hc
          have hle : st.pos + min n (st.total - st.pos) ≤ startOfSubs st.subs i := by
            have h1 := hc.1
            simp only [decide_eq_true_eq] at h1
            exact h1
          have hno : ¬ max st.pos (startOfSubs st.subs i)
              < min (st.pos + min n (st.total - st.pos)) (startOfSubs st.subs i + lenAt st.subs i) := by
            have h1 : min (st.pos + min n (st.total - st.pos)) (startOfSubs st.subs i + lenAt st.subs i)
                ≤ startOfSubs st.subs i :=
              Nat.le_trans (Nat.min_le_left _ _) hle
            have h2 : startOfSubs st.subs i ≤ max st.pos (startOfSubs st.subs i) :=
              Nat.le_max_right _ _
            omega
          have hnext : getCount ((st.step (.read n)).subs) i = 0 := by
            rw [getCount_read_outside st n i hno]
            exact h0
          exact ih (st.step (.read n)) hnext (by rw [hstart]; exact hc.2)

/-- Claim C3: over any handle history, a deferred source's producer runs
at most once; seeks and attribute queries never run it; a read whose
window does not meet the source's byte range leaves its invocation count
unchanged; and a history whose reads all stay below the source's start
offset (inside the ranges of the sources preceding it) never runs it. -/
theorem lazy_producer (srcs : List Source) (ops : List StreamOp) (i : Nat)
    (st : ConcatStream) (n o : Nat) :
    getCount ((runOps (Concat.new srcs) ops).subs) i ≤ 1
  ∧ getCount ((st.step (.seek o)).subs) i = getCount st.subs i
  ∧ getCount ((st.step .queryLen).subs) i = getCount st.subs i
  ∧ (¬ max st.pos (startOfSubs st.subs i)
        < min (st.pos + min n (st.total - st.pos)) (startOfSubs st.subs i + lenAt st.subs i) →
      getCount ((st.step (.read n)).subs) i = getCount st.subs i)
  ∧ (confinedBelow (startOfSubs (Concat.new srcs).subs i) (Concat.new srcs) ops = true →
      getCount ((runOps (Concat.new srcs) ops).subs) i = 0) := by
  refine ⟨?_, rfl, rfl, ?_, ?_⟩
  · exact getCount_le_one_run ops (Concat.new srcs) i
      (Nat.le_trans (Nat.le_of_eq (getCount_new srcs i)) (Nat.zero_le 1))
  · exact getCount_read_outside st n i
  · exact getCount_run_confined ops (Concat.new srcs) i (getCount_new srcs i)

/-- Witness for Claim C3 on a concrete two-source stream whose second
source is deferred, with a history that reads only the first source's
range. -/
theorem lazy_producer_witness :
    (¬ max (Concat.new exSrcsLazy).pos (startOfSubs (Concat.new exSrcsLazy).subs 1)
        < min ((Concat.new exSrcsLazy).pos
                + min 2 ((Concat.new exSrcsLazy).total - (Concat.new exSrcsLazy).pos))
              (startOfSubs (Concat.new exSrcsLazy).subs 1 + lenAt (Concat.new exSrcsLazy).subs 1))
  ∧ confinedBelow (startOfSubs (Concat.new exSrcsLazy).subs 1) (Concat.new exSrcsLazy) exOpsLazy
      = true
  ∧ getCount ((runOps (Concat.new exSrcsLazy) exOpsLazy).subs) 1 ≤ 1
  ∧ getCount (((Concat.new exSrcsLazy).step (.seek 0)).subs) 1
      = getCount (Concat.new exSrcsLazy).subs 1
  ∧ getCount (((Concat.new exSrcsLazy).step .queryLen).subs) 1
      = getCount (Concat.new exSrcsLazy).subs 1
  ∧ getCount (((Concat.new exSrcsLazy).step (.read 2)).subs) 1
      = getCount (Concat.new exSrcsLazy).subs 1
  ∧ getCount ((runOps (Concat.new exSrcsLazy) exOpsLazy).subs) 1 = 0 :=
  ⟨by decide, by decide,
   (lazy_producer exSrcsLazy exOpsLazy 1 (Concat.new exSrcsLazy) 2 0).1,
   (lazy_producer exSrcsLazy exOpsLazy 1 (Concat.new exSrcsLazy) 2 0).2.1,
   (lazy_producer exSrcsLazy exOpsLazy 1 (Concat.new exSrcsLazy) 2 0).2.2.1,
   (lazy_producer exSrcsLazy exOpsLazy 1 (Concat.new exSrcsLazy) 2 0).2.2.2.1 (by decide),
   (lazy_producer exSrcsLazy exOpsLazy 1 (Concat.new exSrcsLazy) 2 0).2.2.2.2 (by decide)⟩

set_option maxRecDepth 8000 in
/-- Claim C7 counterexample: in the scenario's stream (10-byte buffer,
1,000,000 zero bytes, deferred 5,000,000-byte audio), a read of bytes
`[1000005, 1000015)` does not return the audio source's bytes `[5, 15)`:
the audio source only starts at global offset 1,000,010, so the window
still covers five padding bytes. -/
theorem concat_scenario_counterexample :
    ((exScenario.step (.seek 1000005)).read 10).1
      ≠ (List.range 10).map (fun j => exAudio.content (5 + j)) := by
  decide

set_option maxRecDepth 8000 in
/-- Claim C7 (amended): in the scenario's stream, reading `[0, 10)`
returns exactly the buffer's content and leaves the deferred audio
producer uninvoked; a subsequent read of `[1000005, 1000015)` invokes
the producer and returns the padding's last five zero bytes followed by
the audio source's bytes `[0, 5)`. -/
theorem concat_scenario_reads :
    (exScenario.read 10).1 = (List.range 10).map exBuf.content
  ∧ getCount ((exScenario.read 10).2).subs 2 = 0
  ∧ (((exScenario.read 10).2.step (.seek 1000005)).read 10).1
      = [0, 0, 0, 0, 0, exAudio.content 0, exAudio.content 1, exAudio.content 2,
         exAudio.content 3, exAudio.content 4]
  ∧ getCount ((((exScenario.read 10).2.step (.seek 1000005)).read 10).2).subs 2 = 1 := by
  refine ⟨?_, ?_, ?_, ?_⟩ <;> decide

/-- Claim C8: the byte-skip wrapper with skip count `k ≤ L` over an inner
source of length `L` reports length `L - k`, and a one-byte read at any
local offset `o` (in range) yields the inner source's byte at `o + k`;
with `o = 0` this is the inner byte at offset `k`. -/
theorem byteSkip_delegates (inner : Source) (k o : Nat) (hk : k ≤ inner.length)
    (ho : o < inner.length - k) :
    (skipSource inner k).length = inner.length - k
  ∧ (((Concat.new [skipSource inner k]).step (.seek o)).read 1).1 = [inner.content (o + k)] := by
  refine ⟨rfl, ?_⟩
  have hcnt : min 1 (((Concat.new [skipSource inner k]).step (.seek o)).total - o) = 1 := by
    simp only [ConcatStream.step, ConcatStream.total, Concat.new, totalSubs, skipSource]
    simp
    omega
  simp only [ConcatStream.step, ConcatStream.read] at hcnt ⊢
  rw [hcnt]
  have h1 : List.range 1 = [0] := rfl
  rw [h1]
  simp [Concat.new, byteAtSubs, skipSource, ho]

/-- Witness for Claim C8 at a concrete 5-byte source with skip count 3
and local offset 0. -/
theorem byteSkip_delegates_witness :
    (3 ≤ exInner.length ∧ 0 < exInner.length - 3)
  ∧ ((skipSource exInner 3).length = exInner.length - 3
     ∧ (((Concat.new [skipSource exInner 3]).step (.seek 0)).read 1).1
         = [exInner.content (0 + 3)]) :=
  ⟨by decide, byteSkip_delegates exInner 3 0 (by decide) (by decide)⟩

/-- Claim C9: for a track whose ID3 tag serializes successfully, the
stream returned by `open_ro` has total length (serialized tag length)
+ 1,000,000 + (audio length), while `file_attributes` reports
`original_content_size` for the same entry; whenever the audio length is
at least the reported size, the stream is strictly longer than the
reported size, and a one-byte read at offset `original_content_size`
still returns a byte rather than end-of-stream. -/
theorem track_stream_exceeds_attr (t : Track) (tagBuf : List Nat) (ino : Nat)
    (htag : t.id3TagBytes = .ok tagBuf)
    (hsize : t.originalContentSize ≤ t.audio.length) :
    ∃ st, (Entry.track t).openRO = .ok st
      ∧ st.total = tagBuf.length + 1000000 + t.audio.length
      ∧ ((Entry.track t).fileAttributes ino).size = t.originalContentSize
      ∧ ((Entry.track t).fileAttributes ino).size < st.total
      ∧ ((st.step (.seek t.originalContentSize)).read 1).1.length = 1 := by
  refine ⟨Concat.new
    [ { length := tagBuf.length, content := fun i => tagBuf.getD i 0, deferred := false },
      { length := 1000000, content := fun _ => 0, deferred := false },
      { length := t.audio.length, content := fun i => t.audio.getD i 0, deferred := true } ],
    ?_, ?_, rfl, ?_, ?_⟩
  · simp [Entry.openRO, htag]
  · simp [ConcatStream.total, Concat.new, totalSubs]
    omega
  · simp [Entry.fileAttributes, ConcatStream.total, Concat.new, totalSubs]
    omega
  · simp only [ConcatStream.step, ConcatStream.read, List.length_map, List.length_range]
    simp [ConcatStream.total, Concat.new, totalSubs]
    omega

/-- Witness for Claim C9 at a concrete track: reported size 50, a 3-byte
tag, 60 audio bytes. -/
theorem track_stream_exceeds_attr_witness :
    exTrack.id3TagBytes = .ok [1, 2, 3]
  ∧ exTrack.originalContentSize ≤ exTrack.audio.length
  ∧ (∃ st, (Entry.track exTrack).openRO = .ok st
      ∧ st.total = ([1, 2, 3] : List Nat).length + 1000000 + exTrack.audio.length
      ∧ ((Entry.track exTrack).fileAttributes 7).size = exTrack.originalContentSize
      ∧ ((Entry.track exTrack).fileAttributes 7).size < st.total
      ∧ ((st.step (.seek exTrack.originalContentSize)).read 1).1.length = 1) :=
  ⟨rfl, by decide, track_stream_exceeds_attr exTrack [1, 2, 3] 7 rfl (by decide)⟩

/-- Claim C4 counterexample: on the root `Users` node with no shown
names, the listing is empty, yet resolving the absent name `alice`
succeeds (through `User::by_name`) instead of failing with the not-found
error. -/
theorem childByName_users_counterexample :
    (Entry.children exEnv (.users []) 0).1 = .ok []
  ∧ (Entry.childByName exEnv (.users []) "alice" 0).1 = .ok (Entry.user ⟨"alice"⟩ false)
  ∧ (Entry.childByName exEnv (.users []) "alice" 0).1 ≠ .err .childNotFound := by
  refine ⟨?_, ?_, ?_⟩ <;> decide

/-- Claim C4 (amended): on every node other than the root `Users` node,
`child_by_name` resolves through the node's own `children` listing: when
the listing succeeds, resolution returns the first entry whose name
matches and fails with `ChildNotFound` when the name is absent — so it
succeeds exactly when the name occurs in the listing.  (On the root
`Users` node, resolution instead queries the collaborator directly and
can succeed for names absent from the listing.) -/
theorem childByName_matches_children (env : SCEnv) (e : Entry) (name : String)
    (hu : e.isUsers = false) (l : List (String × Entry)) (k : Nat)
    (hc : e.children env 0 = (.ok l, k)) :
    e.childByName env name 0
      = (match l.find? (fun p => p.1 == name) with
         | some p => (Outcome.ok p.2, k)
         | none => (Outcome.err Error.childNotFound, k))
  ∧ ((∃ c k', e.childByName env name 0 = (Outcome.ok c, k')) ↔ name ∈ l.map Prod.fst) := by
  have key : e.childByName env name 0
      = (match l.find? (fun p => p.1 == name) with
         | some p => (Outcome.ok p.2, k)
         | none => (Outcome.err Error.childNotFound, k)) := by
    cases e with
    | users s => simp [Entry.isUsers] at hu
    | user u r =>
        simp only [Entry.childByName]
        rw [hc]
    | userFavorites u =>
        simp only [Entry.childByName]
        rw [hc]
    | userFollowing u =>
        simp only [Entry.childByName]
        rw [hc]
    | userReference u =>
        simp only [Entry.childByName]
        rw [hc]
    | track t =>
        simp only [Entry.childByName]
        rw [hc]
  refine ⟨key, ?_, ?_⟩
  · rintro ⟨c, k', hck⟩
    rw [key] at hck
    cases hfind : l.find? (fun p => p.1 == name) with
    | none =>
        rw [hfind] at hck
        simp at hck
    | some p =>
        have hp := List.find?_some hfind
        have hmem : p ∈ l := List.mem_of_find?_eq_some hfind
        have hpn : p.1 = name := by simpa using hp
        exact hpn ▸ List.mem_map.mpr ⟨p, hmem, rfl⟩
  · intro hname
    rcases List.mem_map.mp hname with ⟨p, hmem, hfst⟩
    cases hfind : l.find? (fun q => q.1 == name) with
    | some q =>
        exact ⟨q.2, k, by rw [key, hfind]⟩
    | none =>
        exfalso
        have hnone := List.find?_eq_none.mp hfind p hmem
        apply hnone
        simp [hfst]

/-- Witness for the amended Claim C4 at a concrete `UserFollowing` node
with an empty listing. -/
theorem childByName_matches_children_witness :
    (Entry.userFollowing ⟨"u"⟩).isUsers = false
  ∧ Entry.children exEnv (Entry.userFollowing ⟨"u"⟩) 0 = (.ok [], 1)
  ∧ (Entry.childByName exEnv (Entry.userFollowing ⟨"u"⟩) "x" 0
       = (match ([] : List (String × Entry)).find? (fun p => p.1 == "x") with
          | some p => (Outcome.ok p.2, 1)
          | none => (Outcome.err Error.childNotFound, 1)))
  ∧ ((∃ c k', Entry.childByName exEnv (Entry.userFollowing ⟨"u"⟩) "x" 0 = (Outcome.ok c, k'))
       ↔ "x" ∈ ([] : List (String × Entry)).map Prod.fst) :=
  ⟨rfl, by decide,
   (childByName_matches_children exEnv (Entry.userFollowing ⟨"u"⟩) "x" rfl [] 1 (by decide)).1,
   (childByName_matches_children exEnv (Entry.userFollowing ⟨"u"⟩) "x" rfl [] 1 (by decide)).2⟩
